import Mathlib

/-!
Verification of the sed implementation in `src/text/sed.rs` (posixutils-rs).

This file gives a shallow embedding of the data model and the operations of
the stream editor: the address model (`AddressToken`, `AddressRange`, the
two-bound range evaluation inside `Command::need_execute`), the regex-adapter
loop `match_pattern`, the substitution engine (`update_pattern_space`,
`execute_replace`), the transliteration command `y`, the script-level
label-uniqueness check and block flattening (`flatten_commands` and the tail
of `Script::parse`), and the per-stream state reset in `Sed::process_input`
together with the end-of-cycle output of `Sed::process_line`.

Modelling conventions, used throughout:
* Rust `String` values are modelled as `List Char`.  All concrete inputs used
  by the theorems are ASCII, where Rust's byte indices coincide with
  character indices, so byte-range operations (`replace_range`, `get(a..b)`)
  become positional list operations.
* The C regex engine (`libc::regexec`) is external to the repository.  The
  loop of `match_pattern` is embedded faithfully and is parametric in an
  `Engine`: the function that, given the remaining haystack suffix, returns
  the nine `regmatch_t` entries (`rm_so`, `rm_eo` as integers; `-1` for an
  unset group, and all zero when `regexec` reports no match, because the
  `pmatch` array is zero-initialised and the return code is ignored).
  Concrete engines (`engineLit`, `engineDollar`) model the documented
  POSIX leftmost-longest behaviour of `regexec` for a single literal
  character and for the bare anchor pattern `"$"`.
* Rust panics (`unwrap` on `None`, `unreachable!`) are modelled as `none` /
  a dedicated `panicked` result.
* The `while` loop of `match_pattern` has no a-priori termination measure in
  the source (and indeed does not always terminate), so it is embedded with
  explicit fuel; exhausting the fuel at every fuel value is the model of
  divergence.
* `HashMap`/`HashSet` iteration order is unspecified in Rust.  Where the
  source reads `map.iter().next()` the model takes the head of the
  association list; every theorem below only exercises this on single-binding
  maps, where the two coincide.  `HashSet` de-duplication is modelled by
  `List.dedup` followed by the source's sort, which fixes the order by the
  sort key in all cases the theorems exercise.
-/

namespace Sed

/-- Abstract handle for a compiled `regex_t`; the matcher itself is supplied
separately as an `Engine` where needed. -/
abbrev RegexId := Nat

/-- `AddressToken` from sed.rs: a line number, the last-line marker `$`, a
compiled regex address, or the `,` delimiter used only during tokenization. -/
inductive AddressToken where
  | number (n : Nat)
  | last
  | pattern (re : RegexId)
  | delimiter
  deriving Repr, DecidableEq

/-- The `PartialEq` implementation for `AddressToken` in sed.rs: numbers
compare by value and any two `Pattern` tokens are considered equal. -/
def tokenEq : AddressToken → AddressToken → Bool
  | .number a, .number b => a == b
  | .last, .last => true
  | .pattern _, .pattern _ => true
  | .delimiter, .delimiter => true
  | _, _ => false

/-- `AddressRange` from sed.rs: the list of limit tokens plus the mutable
per-stream matching state (`passed`, `on_limits`). -/
structure AddressRange where
  limits : List AddressToken
  passed : Option (Bool × Bool)
  onLimits : Option (Bool × Bool)
  deriving Repr, DecidableEq

def isNumberTok : AddressToken → Bool
  | .number _ => true
  | _ => false

/-- `AddressRange::new` (sed.rs lines 204-234): more than two limits is a
parse error; zero limits yields no range; two limits get the initial
`(false, false)` state; and a two-number range whose bottom bound exceeds its
top bound is a parse error. -/
def AddressRange.new (limits : List AddressToken) :
    Except String (Option AddressRange) :=
  if limits.length > 2 then
    .error "address is not empty, position or range"
  else if limits.length = 0 then
    .ok none
  else
    let state : Option (Bool × Bool) :=
      if limits.length = 2 then some (false, false) else none
    if limits.length = 2 ∧ limits.all isNumberTok then
      match limits with
      | [.number a, .number b] =>
        if a > b then
          .error ("bottom bound " ++ toString a ++ " bigger than top bound "
            ++ toString b ++ " in address")
        else
          .ok (some ⟨limits, state, state⟩)
      | _ => .ok (some ⟨limits, state, state⟩)
    else
      .ok (some ⟨limits, state, state⟩)

/-- `Address` from sed.rs: a list of `AddressRange`s, all of which must match
for the owning command to execute. -/
abbrev Address := List AddressRange

/-- `tokens_to_address` (sed.rs lines 670-700): every odd-position token must
be the `,` delimiter and the token list must not end in one; the delimiters
are then dropped, `AddressRange::new` is applied (propagating its error, in
particular the bottom-bound-exceeds-top-bound error), and a literal `0` line
bound is rejected.  `Script::parse` reaches this through `parse_address`,
propagating any error. -/
def tokens_to_address (tokens : List AddressToken) :
    Except String (Option Address) :=
  if ((tokens.enum.filter (fun p => p.1 % 2 = 1)).any
        (fun p => !(tokenEq p.2 .delimiter)))
      || (match tokens.getLast? with
          | some t => tokenEq t .delimiter
          | none => false) then
    .error "address bound can be only one pattern, number or dollar"
  else
    match AddressRange.new (tokens.filter (fun t => !(tokenEq t .delimiter))) with
    | .error e => .error e
    | .ok none => .ok none
    | .ok (some range) =>
      if range.limits.any (fun t => tokenEq (.number 0) t) then
        .error "address lower bound must be bigger than 0"
      else
        .ok (some [range])

/-- The two-number-range arm of `Command::need_execute` (sed.rs lines
412-458), for a range with limits `[Number A, Number B]`.  `lineNumber` is the
0-based internal counter; a `Number` token matches when it equals
`lineNumber + 1`.  The result is the new `passed` state together with whether
the command fires on this line; `none` models the two panics on this path
(`range.passed.unwrap()` when the state is absent, and the `unreachable!()`
guard for the state `(false, true)`). -/
def need_execute_num_range (A B : Nat) (passed : Option (Bool × Bool))
    (lineNumber : Nat) : Option ((Bool × Bool) × Bool) :=
  match passed with
  | none => none
  | some (oldA, oldB) =>
    if !oldA && oldB then
      none
    else
      let r0 : Bool := decide (A = lineNumber + 1)
      let r1 : Bool := decide (B = lineNumber + 1)
      let pa : Bool := r0 || oldA
      let pb : Bool := r1 || oldB
      some ((pa, pb), ((!(oldA && oldB)) && r1) || (pa && !pb))

/-- The `passed` state of a two-number range `A,B` after the command has been
evaluated on lines `1 .. k` of a stream, starting from the `(false, false)`
state installed by `AddressRange::new`. -/
def rangeStateAfter (A B : Nat) : Nat → Option (Bool × Bool)
  | 0 => some (false, false)
  | k + 1 =>
    (rangeStateAfter A B k).bind fun st =>
      (need_execute_num_range A B (some st) k).map Prod.fst

/-- Whether a command addressed by the two-number range `A,B` fires on the
1-based line `l`, after having been evaluated on all earlier lines of the
stream. -/
def rangeFires (A B l : Nat) : Option Bool :=
  (rangeStateAfter A B (l - 1)).bind fun st =>
    (need_execute_num_range A B (some st) (l - 1)).map Prod.snd

/-! ### Regex adapter: `match_pattern` (sed.rs lines 467-520) -/

/-- The NUL character, on which `CString::new` fails. -/
def nulChar : Char := Char.ofNat 0

/-- One call of `libc::regexec` on the remaining haystack suffix: the nine
`regmatch_t` entries `(rm_so, rm_eo)`.  Unset groups are `(-1, -1)`; when
`regexec` reports no match the zero-initialised array is left untouched, so
all entries are `(0, 0)` (the return code is ignored by the source). -/
abbrev Engine := List Char → List (Int × Int)

/-- One enumerated match: the list of `(group index, start, end)` spans, with
positions absolute in the haystack.  This models one `HashMap<usize, Range>`
value of `match_pattern` as an association list in group-index order. -/
abbrev MatchGroups := List (Nat × Nat × Nat)

/-- The per-iteration group extraction of `match_pattern`: enumerate the
`pmatch` array, drop entries with `rm_so <= 0 && rm_eo <= 0`, and shift the
spans by the current offset `i`. -/
def groupsOfPmatch (pm : List (Int × Int)) (i : Nat) : MatchGroups :=
  (pm.enum.filter
      (fun g => !(decide (g.2.1 ≤ 0) && decide (g.2.2 ≤ 0)))).map
    (fun g => (g.1, g.2.1.toNat + i, g.2.2.toNat + i))

/-- The `while` loop of `match_pattern`.  The C-string pointer offset always
equals `i` at the `regexec` call (both accumulate `last_offset`), so the
engine is applied to `hay.drop i`; the offset then advances by the maximum
group length of the found match.  The loop has no termination guarantee in
the source, hence the explicit fuel; `none` means the fuel ran out. -/
def match_pattern_loop (engine : Engine) (hay : List Char) :
    Nat → Nat → List MatchGroups → Option (List MatchGroups)
  | 0, _, _ => none
  | fuel + 1, i, acc =>
    if i < hay.length then
      let groups := groupsOfPmatch (engine (hay.drop i)) i
      if groups.isEmpty then
        some acc
      else
        let lastOffset := groups.foldl (fun m g => max m (g.2.2 - g.2.1)) 0
        match_pattern_loop engine hay fuel (i + lastOffset) (acc ++ [groups])
    else
      some acc

/-- The sort key of `match_pattern`'s final `sort_by`: the start of the first
binding of the map (the maps are non-empty after the preceding filter). -/
def matchKey : MatchGroups → Nat
  | [] => 0
  | g :: _ => g.2.1

def insertByKey (m : MatchGroups) : List MatchGroups → List MatchGroups
  | [] => [m]
  | x :: xs => if matchKey m < matchKey x then m :: x :: xs else x :: insertByKey m xs

/-- Insertion sort by `matchKey`, modelling the stable `sort_by` call. -/
def sortByKey : List MatchGroups → List MatchGroups
  | [] => []
  | m :: ms => insertByKey m (sortByKey ms)

/-- Position of the first NUL byte, as reported by `CString::new`'s error. -/
def nulIndex (hay : List Char) : Nat := hay.findIdx (fun c => c == nulChar)

/-- `match_pattern` (sed.rs lines 467-520): reject haystacks with an embedded
NUL (the `CString::new` conversion fails before any matching), then run the
match loop, de-duplicate (`HashSet`), drop empty maps and sort by the first
binding's start.  `none` models divergence of the loop. -/
def match_pattern (engine : Engine) (hay : List Char) (lineNumber : Nat)
    (fuel : Nat) : Option (Except String (List MatchGroups)) :=
  if hay.contains nulChar then
    some (.error ("line " ++ toString lineNumber ++ " contains nul byte in "
      ++ toString (nulIndex hay) ++ " position"))
  else
    (match_pattern_loop engine hay fuel 0 []).map fun acc =>
      .ok (sortByKey ((acc.dedup).filter (fun m => !m.isEmpty)))

/-- `regexec` model for a single-literal-character pattern such as `"a"`:
the leftmost match is the first occurrence of the character, one character
wide, with capture groups 1-8 unset; when the character does not occur, the
zeroed `pmatch` array is returned unchanged. -/
def engineLit (c : Char) : Engine := fun s =>
  match s.findIdx? (fun x => x == c) with
  | some k => ((k : Int), (k : Int) + 1) :: List.replicate 8 (-1, -1)
  | none => List.replicate 9 (0, 0)

/-- `regexec` model for the bare anchor pattern `"$"`: the (unique, hence
leftmost) match is the empty span at the end of the string. -/
def engineDollar : Engine := fun s =>
  ((s.length : Int), (s.length : Int)) :: List.replicate 8 (-1, -1)

/-! ### Substitution engine: `update_pattern_space`, `execute_replace` -/

/-- `ReplaceFlag` from sed.rs. -/
inductive ReplaceFlag where
  | replaceNth (n : Nat)
  | replaceAll
  | printPatternIfReplace
  | appendToIfReplace (path : String)
  deriving Repr, DecidableEq

def isReplaceN : ReplaceFlag → Bool
  | .replaceNth _ => true
  | _ => false

/-- Rust `str::get(s..e)` on an ASCII string: `none` on an out-of-bounds
range (which the callers turn into a panic via `unwrap`). -/
def extractRange (l : List Char) (s e : Nat) : Option (List Char) :=
  if s ≤ e ∧ e ≤ l.length then some ((l.drop s).take (e - s)) else none

/-- Rust `String::replace_range(s..e, repl)` on an ASCII string: `none`
models the panic on an out-of-bounds range. -/
def replaceRangeList (l : List Char) (s e : Nat) (repl : List Char) :
    Option (List Char) :=
  if s ≤ e ∧ e ≤ l.length then some (l.take s ++ repl ++ l.drop e) else none

/-- `slice::windows(2)` over the characters of a string. -/
def windows2 (l : List Char) : List (Char × Char) := l.zip l.tail

/-- `update_pattern_space` (sed.rs lines 1433-1493).  Computes the ampersand
and backreference positions of the replacement template, expands `&` (using
the first binding of the match map), and then: with exactly one binding in
the map, splices the expanded replacement over that span of the pattern
space; with any other number of bindings, the group expansion only mutates
the local replacement and the pattern space is returned unchanged (as in the
source).  `none` models the `unwrap` panics on invalid spans. -/
def update_pattern_space (ps replacement : List Char) (ranges : MatchGroups) :
    Option (List Char) :=
  let pairs := (windows2 replacement).enum
  let ampersandPositions : List Nat :=
    ((pairs.filterMap
        (fun p => if p.2.1 ≠ '\\' ∧ p.2.2 = '&' then some (p.1 + 1) else none)).reverse)
      ++ (match replacement.head? with
          | some c => if c = '&' then [0] else []
          | none => [])
  let groupPositions : List (Nat × Nat) :=
    ((pairs.filterMap
        (fun p => if p.2.1 ≠ '\\' ∧ p.2.2.isDigit then
            some (p.1 + 1, p.2.2.toNat - 48) else none)).reverse)
      ++ (match replacement.head? with
          | some c => if c.isDigit then [(0, c.toNat - 48)] else []
          | none => [])
  let withAmps : Option (List Char) :=
    match ranges with
    | [] => some replacement
    | (_, s, e) :: _ =>
      let value := extractRange ps s e
      ampersandPositions.foldl
        (fun acc pos => acc.bind fun lr =>
          value.bind fun v => replaceRangeList lr pos (pos + 1) v)
        (some replacement)
  withAmps.bind fun localReplacement =>
    if ranges.length ≠ 1 then
      (groupPositions.foldl
        (fun acc pg => acc.bind fun lr =>
          let replaceStr : Option (List Char) :=
            match ranges.find? (fun g => g.1 == pg.2) with
            | some g => extractRange ps g.2.1 g.2.2
            | none => some []
          replaceStr.bind fun v => replaceRangeList lr pg.1 (pg.1 + 1) v)
        (some localReplacement)).map (fun _ => ps)
    else
      match ranges with
      | (_, s, e) :: _ => replaceRangeList ps s e localReplacement
      | [] => none

/-- Result of `execute_replace`: the final pattern space, a panic, an error,
or divergence of the match loop. -/
inductive ReplaceResult where
  | ok (ps : List Char)
  | panicked
  | err (msg : String)
  | diverged
  deriving Repr, DecidableEq

/-- Insert `c` before position `p` (Rust `String::insert`). -/
def insertAt (l : List Char) (p : Nat) (c : Char) : List Char :=
  l.take p ++ c :: l.drop p

/-- The newline re-escape loop at the end of `execute_replace` (sed.rs lines
1532-1539): scan the pattern space; at each newline insert a backslash before
the preceding position (`i.saturating_sub(1)`) and skip two positions.  The
loop's measure `ps.length - i` starts at `ps.length` and strictly decreases
every iteration, so `ps.length` steps always suffice; the fuel-exhausted
branch is therefore unreachable and returns the current state. -/
def escapeNewlinesAux : Nat → List Char → Nat → List Char
  | 0, ps, _ => ps
  | fuel + 1, ps, i =>
    if h : i < ps.length then
      if ps.get ⟨i, h⟩ = '\n' then
        escapeNewlinesAux fuel (insertAt ps (i - 1) '\\') (i + 2)
      else
        escapeNewlinesAux fuel ps (i + 1)
    else ps

def escapeNewlines (ps : List Char) : List Char :=
  escapeNewlinesAux ps.length ps 0

/-- `execute_replace` (sed.rs lines 1496-1559), as a function of the pattern
space.  Occurrence selection: with matches found and neither an nth flag nor
the global flag, the first match; with an nth flag `n`, the guard
`ms.length >= n - 1` followed by `ms.get(n - 1).unwrap()` (the `unwrap` panic
is `none`); with the global flag, every match in reverse (right-to-left)
order.  Afterwards the newline re-escape loop runs.  The `p` and `w` flags
only produce output side effects and do not alter the returned pattern
space, so they are not modelled further.  `n - 1` is natural subtraction;
no theorem below uses `n = 0` (where release-mode Rust would wrap). -/
def execute_replace (engine : Engine) (fuel : Nat) (ps replacement : List Char)
    (flags : List ReplaceFlag) (lineNumber : Nat) : ReplaceResult :=
  match match_pattern engine ps lineNumber fuel with
  | none => .diverged
  | some (.error e) => .err e
  | some (.ok ms) =>
    let hasN := flags.any isReplaceN
    let hasG := flags.contains ReplaceFlag.replaceAll
    let step1 : Option (List Char) :=
      match ms, hasN, hasG with
      | m :: _, false, false => update_pattern_space ps replacement m
      | _, _, _ =>
        match flags.find? isReplaceN with
        | some (ReplaceFlag.replaceNth n) =>
          if ms.length ≥ n - 1 then
            match ms.get? (n - 1) with
            | some m => update_pattern_space ps replacement m
            | none => none
          else some ps
        | _ =>
          if hasG then
            ms.reverse.foldl
              (fun acc m => acc.bind fun p => update_pattern_space p replacement m)
              (some ps)
          else some ps
    match step1 with
    | none => .panicked
    | some ps1 => .ok (escapeNewlines ps1)

/-- Helper for the non-termination of `match_pattern` on the anchor pattern
`"$"`: on haystack `"ab"` the loop finds the zero-length match `(2, 2)`,
computes `last_offset = 0`, leaves `i = 0` and repeats forever, so every
fuel value is exhausted. -/
theorem match_pattern_loop_dollar_ab_none :
    ∀ (fuel : Nat) (acc : List MatchGroups),
      match_pattern_loop engineDollar ("ab".toList) fuel 0 acc = none := by
  intro fuel
  induction fuel with
  | zero => intro acc; rfl
  | succ n ih =>
    intro acc
    have h : match_pattern_loop engineDollar ("ab".toList) (n + 1) 0 acc
        = match_pattern_loop engineDollar ("ab".toList) n 0 (acc ++ [[(0, 2, 2)]]) := rfl
    rw [h]
    exact ih (acc ++ [[(0, 2, 2)]])

/-- C1: for the substitute command, occurrence selection follows the spec's
reference examples: with no occurrence flag only the first match is replaced
(`s/a/b/` on `"aaa"` yields `"baa"`), with the global flag every
non-overlapping match is replaced right-to-left (`s/a/b/g` on `"aaa"` yields
`"bbb"`), and with the nth-occurrence flag `2` exactly the second match is
replaced (`s/a/b/2` on `"aaa"` yields `"aba"`), as computed by
`execute_replace` with the `regexec` model for the literal pattern `"a"`. -/
theorem substitute_occurrence_selection :
    execute_replace (engineLit 'a') 10 ("aaa".toList) ("b".toList) [] 0
        = .ok ("baa".toList)
    ∧ execute_replace (engineLit 'a') 10 ("aaa".toList) ("b".toList)
        [.replaceAll] 0 = .ok ("bbb".toList)
    ∧ execute_replace (engineLit 'a') 10 ("aaa".toList) ("b".toList)
        [.replaceNth 2] 0 = .ok ("aba".toList) :=
  ⟨rfl, rfl, rfl⟩

/-- C5: the claim that the match enumeration terminates on every regex and
finite text fails: for the anchor pattern `"$"` (modelled by `engineDollar`,
whose unique match on any suffix is the zero-length span at its end) on the
haystack `"ab"`, the zero-length match at position 2 survives the
`rm_so <= 0 && rm_eo <= 0` filter while `last_offset` (the maximum group
length) is 0, so the offset never advances and `match_pattern` diverges:
every fuel value is exhausted. -/
theorem match_pattern_dollar_diverges :
    ∀ fuel : Nat, match_pattern engineDollar ("ab".toList) 0 fuel = none := by
  intro fuel
  unfold match_pattern
  rw [if_neg (by decide), match_pattern_loop_dollar_ab_none]
  rfl

/-- C7: with an nth-occurrence flag `n` and exactly `n - 1` matches in the
pattern space, `execute_replace` is not a silent no-op: the guard
`match_subranges.len() >= n - 1` passes and `get(n - 1).unwrap()` panics
(here `s/a/b/2` on pattern space `"a"`, which has one match).  With at most
`n - 2` matches (here `"x"`, no match) it is a silent no-op. -/
theorem replace_nth_missing_match_panics :
    execute_replace (engineLit 'a') 10 ("a".toList) ("b".toList)
        [.replaceNth 2] 0 = .panicked
    ∧ execute_replace (engineLit 'a') 10 ("x".toList) ("b".toList)
        [.replaceNth 2] 0 = .ok ("x".toList) :=
  ⟨rfl, rfl⟩

/-- C6: for every haystack containing an embedded NUL byte, `match_pattern`
fails explicitly with an error (the `CString::new` conversion is rejected
before any matching), for every engine, line number and fuel: it neither
truncates nor succeeds. -/
theorem match_pattern_nul_error (engine : Engine) (hay : List Char)
    (ln fuel : Nat) (h : nulChar ∈ hay) :
    ∃ e, match_pattern engine hay ln fuel = some (.error e) := by
  have hc : hay.contains nulChar = true := List.elem_eq_true_of_mem h
  refine ⟨"line " ++ toString ln ++ " contains nul byte in "
    ++ toString (nulIndex hay) ++ " position", ?_⟩
  unfold match_pattern
  rw [if_pos hc]

/-- Witness for C6 at the concrete haystack `['a', NUL, 'b']` with the
literal-`'a'` engine. -/
theorem match_pattern_nul_error_witness :
    nulChar ∈ ['a', nulChar, 'b']
    ∧ ∃ e, match_pattern (engineLit 'a') ['a', nulChar, 'b'] 1 3
        = some (.error e) :=
  ⟨by decide, match_pattern_nul_error (engineLit 'a') ['a', nulChar, 'b'] 1 3
    (by decide)⟩

/-- Invariant of the two-number-range state: after evaluating lines
`1 .. k`, the `passed` pair records exactly whether line `A` (resp. `B`) has
been reached, i.e. `(A ≤ k, B ≤ k)`. -/
theorem rangeStateAfter_eq (A B : Nat) (hA : 1 ≤ A) (hAB : A ≤ B) :
    ∀ k, rangeStateAfter A B k = some (decide (A ≤ k), decide (B ≤ k)) := by
  intro k
  induction k with
  | zero =>
    have h1 : decide (A ≤ 0) = false := decide_eq_false (by omega)
    have h2 : decide (B ≤ 0) = false := decide_eq_false (by omega)
    simp [rangeStateAfter, h1, h2]
    omega
  | succ k ih =>
    rw [rangeStateAfter, ih]
    have hg : (!decide (A ≤ k) && decide (B ≤ k)) = false := by
      by_cases hB : B ≤ k
      · have hA' : A ≤ k := le_trans hAB hB
        simp [hA', hB]
      · simp [hB]
    have ha : (decide (A = k + 1) || decide (A ≤ k)) = decide (A ≤ k + 1) := by
      rw [Bool.eq_iff_iff]
      simp only [Bool.or_eq_true, decide_eq_true_eq]
      omega
    have hb : (decide (B = k + 1) || decide (B ≤ k)) = decide (B ≤ k + 1) := by
      rw [Bool.eq_iff_iff]
      simp only [Bool.or_eq_true, decide_eq_true_eq]
      omega
    simp only [Option.some_bind, need_execute_num_range, hg, ha, hb]
    simp

/-- Characterization of range firing: given `1 ≤ A ≤ B` and a 1-based line
`l ≥ 1`, the firing condition computed by `Command::need_execute` is exactly
`A ≤ l ∧ l ≤ B`. -/
theorem rangeFires_eq (A B l : Nat) (hA : 1 ≤ A) (hAB : A ≤ B)
    (hl : 1 ≤ l) :
    rangeFires A B l = some (decide (A ≤ l ∧ l ≤ B)) := by
  unfold rangeFires
  rw [rangeStateAfter_eq A B hA hAB (l - 1)]
  have hg : (!decide (A ≤ l - 1) && decide (B ≤ l - 1)) = false := by
    by_cases hB : B ≤ l - 1
    · have hA' : A ≤ l - 1 := le_trans hAB hB
      simp [hA', hB]
    · simp [hB]
  have hll : l - 1 + 1 = l := by omega
  simp only [Option.some_bind, need_execute_num_range, hll, hg]
  simp only [Bool.false_eq_true, if_false, Option.map_some', Option.some.injEq]
  rw [Bool.eq_iff_iff]
  simp only [Bool.or_eq_true, Bool.and_eq_true, Bool.not_eq_true',
    Bool.and_eq_false_iff, Bool.or_eq_false_iff,
    decide_eq_true_eq, decide_eq_false_iff_not]
  omega

/-- C2: for every two-number address range `A,B` with `1 ≤ A ≤ B` evaluated
on the successive lines of a stream, the command fires exactly on the
1-based lines in the inclusive interval `[A, B]`; and a two-number address
with `A > B` is rejected during parsing (`tokens_to_address` propagates the
error of `AddressRange::new`, and `Script::parse` in turn propagates it
through `parse_address`).  The bound `1 ≤ A` reflects the parse-time
rejection of a literal `0` line bound in `tokens_to_address`. -/
theorem two_number_range_semantics :
    (∀ A B l : Nat, 1 ≤ A → A ≤ B → 1 ≤ l →
      rangeFires A B l = some (decide (A ≤ l ∧ l ≤ B)))
    ∧ (∀ a b : Nat, a > b →
      ∃ e, tokens_to_address [.number a, .delimiter, .number b] = .error e) := by
  constructor
  · exact rangeFires_eq
  · intro a b hab
    refine ⟨"bottom bound " ++ toString a ++ " bigger than top bound "
      ++ toString b ++ " in address", ?_⟩
    have h2 : AddressRange.new [AddressToken.number a, AddressToken.number b]
        = .error ("bottom bound " ++ toString a ++ " bigger than top bound "
          ++ toString b ++ " in address") := by
      unfold AddressRange.new
      simp [isNumberTok, hab]
    have hfil : List.filter (fun t => !(tokenEq t AddressToken.delimiter))
        [AddressToken.number a, AddressToken.delimiter, AddressToken.number b]
        = [AddressToken.number a, AddressToken.number b] := by
      simp [tokenEq]
    unfold tokens_to_address
    rw [if_neg (by simp [List.enum, List.enumFrom, tokenEq])]
    rw [hfil, h2]

/-- Witness for C2 at the concrete range `2,3`, line 2, and at the inverted
bounds `3,2`. -/
theorem two_number_range_semantics_witness :
    rangeFires 2 3 2 = some (decide (2 ≤ 2 ∧ 2 ≤ 3))
    ∧ ∃ e, tokens_to_address [.number 3, .delimiter, .number 2] = .error e :=
  ⟨two_number_range_semantics.1 2 3 2 (by decide) (by decide) (by decide),
   two_number_range_semantics.2 3 2 (by decide)⟩

/-! ### Commands, the label-uniqueness check and block flattening -/

/-- `Command` from sed.rs: one variant per script verb, each carrying its
optional address and operands.  The compiled regex of `s` is an abstract
`RegexId` here (the matcher is supplied as an `Engine` where needed). -/
inductive Command where
  | block (addr : Option Address) (cmds : List Command)
  | printTextAfter (addr : Option Address) (text : String)
  | branchToLabel (addr : Option Address) (label : Option String)
  | deletePatternAndPrintText (addr : Option Address) (text : String)
  | deletePattern (addr : Option Address) (toFirstLine : Bool)
  | replacePatternWithHold (addr : Option Address)
  | appendHoldToPattern (addr : Option Address)
  | replaceHoldWithPattern (addr : Option Address)
  | appendPatternToHold (addr : Option Address)
  | printTextBefore (addr : Option Address) (text : String)
  | printPatternBinary (addr : Option Address)
  | printPatternAndReplaceWithNext (addr : Option Address)
  | appendNextToPattern (addr : Option Address)
  | printPattern (addr : Option Address) (toFirstLine : Bool)
  | quit (addr : Option Address)
  | printFile (addr : Option Address) (path : String)
  | replace (addr : Option Address) (re : RegexId) (replacement : String)
      (flags : List ReplaceFlag)
  | test (addr : Option Address) (label : Option String)
  | appendPatternToFile (addr : Option Address) (path : String)
  | exchangeSpaces (addr : Option Address)
  | replaceCharSet (addr : Option Address) (s1 s2 : String)
  | bearBranchLabel (label : String)
  | printStandard (addr : Option Address)
  | ignoreComment
  | unknown

/-- `Command::get_mut_address` (sed.rs lines 356-383): the command's address
slot and its maximum limit-token count.  As in the source,
`AppendNextToPattern` (`N`), labels, comments and `_Unknown` fall through the
wildcard arm and have no address slot. -/
def getAddr : Command → Option (Option Address × Nat)
  | .block addr _ => some (addr, 2)
  | .printTextAfter addr _ => some (addr, 1)
  | .branchToLabel addr _ => some (addr, 2)
  | .deletePatternAndPrintText addr _ => some (addr, 2)
  | .deletePattern addr _ => some (addr, 2)
  | .replacePatternWithHold addr => some (addr, 2)
  | .appendHoldToPattern addr => some (addr, 2)
  | .replaceHoldWithPattern addr => some (addr, 2)
  | .appendPatternToHold addr => some (addr, 2)
  | .printTextBefore addr _ => some (addr, 1)
  | .printPatternBinary addr => some (addr, 2)
  | .printPatternAndReplaceWithNext addr => some (addr, 2)
  | .printPattern addr _ => some (addr, 2)
  | .quit addr => some (addr, 1)
  | .printFile addr _ => some (addr, 1)
  | .replace addr _ _ _ => some (addr, 2)
  | .test addr _ => some (addr, 2)
  | .appendPatternToFile addr _ => some (addr, 2)
  | .exchangeSpaces addr => some (addr, 2)
  | .replaceCharSet addr _ _ => some (addr, 2)
  | .printStandard addr => some (addr, 1)
  | _ => none

/-- Write a command's address slot back (the mutation performed through
`get_mut_address`); commands without an address slot are unchanged. -/
def setAddr (c : Command) (newAddr : Option Address) : Command :=
  match c with
  | .block _ cmds => .block newAddr cmds
  | .printTextAfter _ t => .printTextAfter newAddr t
  | .branchToLabel _ l => .branchToLabel newAddr l
  | .deletePatternAndPrintText _ t => .deletePatternAndPrintText newAddr t
  | .deletePattern _ b => .deletePattern newAddr b
  | .replacePatternWithHold _ => .replacePatternWithHold newAddr
  | .appendHoldToPattern _ => .appendHoldToPattern newAddr
  | .replaceHoldWithPattern _ => .replaceHoldWithPattern newAddr
  | .appendPatternToHold _ => .appendPatternToHold newAddr
  | .printTextBefore _ t => .printTextBefore newAddr t
  | .printPatternBinary _ => .printPatternBinary newAddr
  | .printPatternAndReplaceWithNext _ => .printPatternAndReplaceWithNext newAddr
  | .printPattern _ b => .printPattern newAddr b
  | .quit _ => .quit newAddr
  | .printFile _ p => .printFile newAddr p
  | .replace _ re r f => .replace newAddr re r f
  | .test _ l => .test newAddr l
  | .appendPatternToFile _ p => .appendPatternToFile newAddr p
  | .exchangeSpaces _ => .exchangeSpaces newAddr
  | .replaceCharSet _ s1 s2 => .replaceCharSet newAddr s1 s2
  | .printStandard _ => .printStandard newAddr
  | c => c

/-- The per-command address extension of `flatten_commands` (sed.rs lines
1413-1421): a command with an address gets the block's ranges appended
(logical AND); a command with an empty slot receives the block's address;
commands without a slot are untouched. -/
def extendWithBlockAddr (blockAddr : Address) (c : Command) : Command :=
  match getAddr c with
  | none => c
  | some (addr, _) =>
    match addr with
    | some a => setAddr c (some (a ++ blockAddr))
    | none => setAddr c (some blockAddr)

def isBlock : Command → Bool
  | .block _ _ => true
  | _ => false

/-- One pass of the `while` loop in `flatten_commands`: replace each
top-level `Block` by its children, extending their addresses with the
block's own address when it has one (the source's
`into_iter().map(..).flatten()`, written as direct recursion). -/
def expandBlocks : List Command → List Command
  | [] => []
  | c :: cs =>
    (match c with
     | .block none blockCmds => blockCmds
     | .block (some baddr) blockCmds =>
         blockCmds.map (extendWithBlockAddr baddr)
     | c => [c]) ++ expandBlocks cs

mutual

/-- Number of `Block` constructors in a command, nested ones included. -/
def countBlocks : Command → Nat
  | .block _ l => 1 + countBlocksList l
  | _ => 0

def countBlocksList : List Command → Nat
  | [] => 0
  | c :: cs => countBlocks c + countBlocksList cs

end

theorem countBlocks_setAddr (c : Command) (x : Option Address) :
    countBlocks (setAddr c x) = countBlocks c := by
  cases c <;> rfl

theorem countBlocks_extend (a : Address) (c : Command) :
    countBlocks (extendWithBlockAddr a c) = countBlocks c := by
  unfold extendWithBlockAddr
  rcases hg : getAddr c with _ | ⟨addr, n⟩
  · rfl
  · cases addr <;> simp [hg, countBlocks_setAddr]

@[simp] theorem countBlocksList_nil : countBlocksList [] = 0 := rfl

@[simp] theorem countBlocksList_cons (c : Command) (cs : List Command) :
    countBlocksList (c :: cs) = countBlocks c + countBlocksList cs := rfl

theorem countBlocksList_append (l1 l2 : List Command) :
    countBlocksList (l1 ++ l2) = countBlocksList l1 + countBlocksList l2 := by
  induction l1 with
  | nil => simp
  | cons c cs ih => simp [ih, Nat.add_assoc]

theorem countBlocksList_map_extend (a : Address) (l : List Command) :
    countBlocksList (l.map (extendWithBlockAddr a)) = countBlocksList l := by
  induction l with
  | nil => rfl
  | cons c cs ih => simp [countBlocks_extend, ih]

theorem countBlocksList_expand_le (cmds : List Command) :
    countBlocksList (expandBlocks cmds) ≤ countBlocksList cmds := by
  induction cmds with
  | nil => exact Nat.le_refl _
  | cons c cs ih =>
    cases c
    case block addr l =>
      cases addr <;>
        (simp [expandBlocks, countBlocksList_append, countBlocksList_map_extend,
           countBlocks]) <;>
        omega
    all_goals
      (simp [expandBlocks, countBlocksList_append, countBlocks]; omega)

theorem countBlocksList_expand_lt (cmds : List Command)
    (h : cmds.any isBlock = true) :
    countBlocksList (expandBlocks cmds) < countBlocksList cmds := by
  induction cmds with
  | nil => simp at h
  | cons c cs ih =>
    cases c
    case block addr l =>
      have hle := countBlocksList_expand_le cs
      cases addr <;>
        (simp [expandBlocks, countBlocksList_append, countBlocksList_map_extend,
           countBlocks]) <;>
        omega
    all_goals
      (have h' : cs.any isBlock = true := by simpa [isBlock] using h
       have hlt := ih h'
       simp [expandBlocks, countBlocksList_append, countBlocks]
       omega)

/-- `flatten_commands` (sed.rs lines 1402-1431): repeat the expansion pass
while any top-level `Block` remains.  Termination: each pass removes every
top-level block and surfaces its children, so the total number of `Block`
constructors strictly decreases. -/
def flatten_commands (cmds : List Command) : List Command :=
  if h : cmds.any isBlock then
    flatten_commands (expandBlocks cmds)
  else cmds
  termination_by countBlocksList cmds
  decreasing_by exact countBlocksList_expand_lt cmds h

theorem flatten_commands_no_block (cmds : List Command) :
    (flatten_commands cmds).any isBlock = false := by
  induction cmds using flatten_commands.induct with
  | case1 cmds h ih =>
    rw [flatten_commands, dif_pos h]
    exact ih
  | case2 cmds h =>
    rw [flatten_commands, dif_neg h]
    exact Bool.eq_false_iff.mpr h

/-- Labels visible to the duplicate-label check of `Script::parse` (sed.rs
lines 1367-1377): only top-level `BearBranchLabel` commands are collected —
the check runs before `flatten_commands`, so labels nested inside a
still-unflattened `Block` are invisible to it. -/
def topLevelLabels (cmds : List Command) : List String :=
  cmds.filterMap fun c =>
    match c with
    | .bearBranchLabel l => some l
    | _ => none

/-- `find_first_repeated_label` (sed.rs lines 1166-1178).  The source builds
a `HashMap` of counts and returns an arbitrary label with count greater than
one (map iteration order is unspecified); the model deterministically picks
the first such label in list order. -/
def find_first_repeated_label (labels : List String) : Option String :=
  labels.find? (fun l => labels.count l > 1)

/-- `Command::check_address` (sed.rs lines 387-409): error when any range of
the command's address has more limit tokens than the command supports (the
source's message also embeds the offending command; the model keeps a fixed
text). -/
def checkAddress (c : Command) : Except String Unit :=
  match getAddr c with
  | none => .ok ()
  | some (addr, maxLen) =>
    match addr with
    | none => .ok ()
    | some address =>
      if address.any (fun r => r.limits.length > maxLen) then
        .error "address has more boundaries than the command supports"
      else .ok ()

def checkAddresses : List Command → Except String Unit
  | [] => .ok ()
  | c :: cs =>
    match checkAddress c with
    | .error e => .error e
    | .ok _ => checkAddresses cs

/-- The tail of `Script::parse` (sed.rs lines 1367-1398), after the
character-level scan produced the command list: collect the top-level
labels, fail when they contain a duplicate (naming one via
`find_first_repeated_label`), check every command's address arity, and
finally flatten the blocks. -/
def scriptParseTail (cmds : List Command) : Except String (List Command) :=
  if (topLevelLabels cmds).length > (topLevelLabels cmds).dedup.length then
    .error ((match find_first_repeated_label (topLevelLabels cmds) with
             | some l => "label " ++ l
             | none => "some label") ++ " is repeated")
  else
    match checkAddresses cmds with
    | .error e => .error e
    | .ok _ => .ok (flatten_commands cmds)

/-- C8 counterexample: a script whose flattened command sequence has two
labels `x` — one at top level, one inside a block (the command list
`Script::parse` builds for a script like `":x\n{\n:x\n}"`, the inner block
having been parsed by the recursive `Script::parse` call in `parse_block`) —
is accepted: the duplicate-label check runs before flattening and only sees
top-level labels, so `Script::parse`'s tail returns `Ok` even though the
flattened script `[: x, : x]` bears the same label twice. -/
theorem duplicate_label_across_block_not_detected :
    scriptParseTail [Command.bearBranchLabel "x",
        Command.block none [Command.bearBranchLabel "x"]]
      = .ok [Command.bearBranchLabel "x", Command.bearBranchLabel "x"]
    ∧ topLevelLabels [Command.bearBranchLabel "x", Command.bearBranchLabel "x"]
      = ["x", "x"] := by
  have hflat : flatten_commands [Command.bearBranchLabel "x",
      Command.block none [Command.bearBranchLabel "x"]]
      = [Command.bearBranchLabel "x", Command.bearBranchLabel "x"] := by
    rw [flatten_commands, dif_pos (by rfl)]
    rw [show expandBlocks [Command.bearBranchLabel "x",
        Command.block none [Command.bearBranchLabel "x"]]
        = [Command.bearBranchLabel "x", Command.bearBranchLabel "x"] from rfl]
    rw [flatten_commands, dif_neg (by simp [isBlock])]
  refine ⟨?_, rfl⟩
  calc scriptParseTail [Command.bearBranchLabel "x",
          Command.block none [Command.bearBranchLabel "x"]]
      = .ok (flatten_commands [Command.bearBranchLabel "x",
          Command.block none [Command.bearBranchLabel "x"]]) := by
        unfold scriptParseTail
        rw [if_neg (by decide)]
        rfl
    _ = .ok [Command.bearBranchLabel "x", Command.bearBranchLabel "x"] := by
        rw [hflat]

/-- C8 amended: a duplicate among the labels at the same block-nesting level
(here: the top level of the command list handed to the label check) is a
parse error naming one offending label — one that indeed occurs more than
once. -/
theorem duplicate_label_same_level_is_error (cmds : List Command)
    (h : (topLevelLabels cmds).dedup.length < (topLevelLabels cmds).length) :
    ∃ l, scriptParseTail cmds = .error ("label " ++ l ++ " is repeated")
      ∧ 1 < (topLevelLabels cmds).count l := by
  have hdup : ∃ l ∈ topLevelLabels cmds, 1 < (topLevelLabels cmds).count l := by
    by_contra hno
    push_neg at hno
    have hnodup : (topLevelLabels cmds).Nodup := by
      rw [List.nodup_iff_count_le_one]
      intro a
      by_cases ha : a ∈ topLevelLabels cmds
      · exact hno a ha
      · simp [List.count_eq_zero_of_not_mem ha]
    rw [List.dedup_eq_self.mpr hnodup] at h
    omega
  obtain ⟨l, hmem, hcount⟩ := hdup
  have hsome : (find_first_repeated_label (topLevelLabels cmds)).isSome := by
    rw [find_first_repeated_label, List.find?_isSome]
    exact ⟨l, hmem, by simpa using hcount⟩
  obtain ⟨l', hl'⟩ := Option.isSome_iff_exists.mp hsome
  have hcount' : 1 < (topLevelLabels cmds).count l' := by
    have hp := List.find?_some hl'
    simpa using hp
  have hl2 : find_first_repeated_label (topLevelLabels cmds) = some l' := hl'
  refine ⟨l', ?_, hcount'⟩
  unfold scriptParseTail
  rw [if_pos (by omega)]
  rw [hl2]

/-- Witness for the amended C8 at the command list `[: x, : x]`. -/
theorem duplicate_label_same_level_is_error_witness :
    ∃ l, scriptParseTail
        [Command.bearBranchLabel "x", Command.bearBranchLabel "x"]
        = .error ("label " ++ l ++ " is repeated")
      ∧ 1 < (topLevelLabels
          [Command.bearBranchLabel "x", Command.bearBranchLabel "x"]).count l :=
  duplicate_label_same_level_is_error
    [Command.bearBranchLabel "x", Command.bearBranchLabel "x"] (by decide)

/-- C10: every command list returned successfully by the tail of
`Script::parse` is free of `Block` commands: the `while` loop of
`flatten_commands` only stops once no block remains, so the execution
engine's `Command::Block` arm is unreachable for a parsed script. -/
theorem parse_output_has_no_block (cmds r : List Command)
    (h : scriptParseTail cmds = .ok r) : r.any isBlock = false := by
  unfold scriptParseTail at h
  by_cases hdup :
      (topLevelLabels cmds).length > (topLevelLabels cmds).dedup.length
  · rw [if_pos hdup] at h
    exact absurd h (by simp)
  · rw [if_neg hdup] at h
    rcases hca : checkAddresses cmds with e | u
    · rw [hca] at h
      exact absurd h (by simp)
    · rw [hca] at h
      simp only [Except.ok.injEq] at h
      rw [← h]
      exact flatten_commands_no_block cmds

/-- Witness for C10 at the one-command script `q`. -/
theorem parse_output_has_no_block_witness :
    scriptParseTail [Command.quit none] = .ok [Command.quit none]
    ∧ ([Command.quit none].any isBlock = false) := by
  have hflat : flatten_commands [Command.quit none] = [Command.quit none] := by
    rw [flatten_commands, dif_neg (by simp [isBlock])]
  have hs : scriptParseTail [Command.quit none] = .ok [Command.quit none] := by
    calc scriptParseTail [Command.quit none]
        = .ok (flatten_commands [Command.quit none]) := by
          unfold scriptParseTail
          rw [if_neg (by decide)]
          rfl
      _ = .ok [Command.quit none] := by rw [hflat]
  exact ⟨hs, parse_output_has_no_block _ _ hs⟩

/-! ### Execution engine: state resets, `d`, auto-print, `y` -/

/-- The control-flow signals returned by `Sed::execute`
(`ControlFlowInstruction` in sed.rs): `breakLoop` = `Break`, `continueCycle`
= `Continue`, plus `Goto`, `NotReadNext`, `ReadNext`, `AppendNext`. -/
inductive ControlFlowInstruction where
  | breakLoop
  | continueCycle
  | goto (label : Option String)
  | notReadNext
  | readNext
  | appendNext
  deriving Repr, DecidableEq

/-- The fields of the `Sed` session state that the stream-boundary reset and
the end-of-cycle output touch. -/
structure SedState where
  patternSpace : List Char
  holdSpace : List Char
  afterSpace : List Char
  currentLine : Nat
  hasReplacementsSinceT : Bool
  quiet : Bool

/-- The per-stream reset at the top of `Sed::process_input` (sed.rs lines
1940-1942): `pattern_space.clear(); hold_space.clear(); current_line = 0;`.
`Sed::sed` calls `process_input` once per input source, so this reset runs
whenever the outer loop moves to the next source. -/
def processInputInit (s : SedState) : SedState :=
  { s with patternSpace := [], holdSpace := [], currentLine := 0 }

/-- C3: the claim that the hold space is preserved (not reset) when the
outer loop moves to the next input source fails on the code: the reset at
the top of `Sed::process_input` clears the hold space unconditionally,
together with the pattern space and the line counter, whatever their
previous contents. -/
theorem hold_space_cleared_between_files :
    ∀ s : SedState,
      (processInputInit s).holdSpace = []
      ∧ (processInputInit s).patternSpace = []
      ∧ (processInputInit s).currentLine = 0 :=
  fun _ => ⟨rfl, rfl, rfl⟩

/-- The `d`/`D` arm of `Sed::execute` (sed.rs lines 1660-1676): `D` with an
embedded newline drops the leading newlines (`skip_while`) and restarts the
cycle without reading; otherwise the pattern space is cleared and the
`Continue` signal ends the cycle. -/
def executeDeletePattern (ps : List Char) (toFirstLine : Bool) :
    List Char × Option ControlFlowInstruction :=
  if toFirstLine && ps.contains '\n' then
    (ps.dropWhile (fun c => c == '\n'), some .notReadNext)
  else
    ([], some .continueCycle)

/-- Rust `str::trim_end_matches('\r')`: strip every trailing carriage
return. -/
def trimEndCR (ps : List Char) : List Char :=
  (ps.reverse.dropWhile (fun c => c == '\r')).reverse

/-- The end-of-cycle output of `Sed::process_line` (sed.rs lines 1924-1932):
when the quiet flag is unset, print the pattern space with trailing carriage
returns stripped, then a newline when no append text is buffered; then the
append text with a trailing newline when present.  In the source this
epilogue runs regardless of how the command loop ended — in particular also
after `d` (`Continue`), which only clears the pattern space. -/
def processLineOutput (quiet : Bool) (ps afterSpace : List Char) :
    List Char :=
  (if !quiet then
      trimEndCR ps ++ (if afterSpace.isEmpty then ['\n'] else [])
    else [])
  ++ (if !afterSpace.isEmpty then afterSpace ++ ['\n'] else [])

/-- C4: a cycle ended by `d` still writes a pattern-space line: `d` clears
the pattern space and returns `Continue`, the command loop breaks, and the
auto-print epilogue then emits the now-empty pattern space followed by a
newline — an empty output line on standard output, where the claim requires
no pattern-space output at all.  (For comparison: a normal cycle prints the
pattern space plus newline, and the quiet flag suppresses the output, both
as claimed.) -/
theorem delete_cycle_still_prints_empty_line :
    executeDeletePattern ("a".toList) false = ([], some .continueCycle)
    ∧ processLineOutput false [] [] = ['\n']
    ∧ (['\n'] : List Char) ≠ []
    ∧ processLineOutput false ("a".toList) [] = "a\n".toList
    ∧ processLineOutput true [] [] = [] :=
  ⟨rfl, rfl, by decide, rfl, rfl⟩

/-- Rust `String::replace(c, ..)` for a one-character pattern: every
occurrence of `a` becomes `b`. -/
def replaceChar (a b : Char) (ps : List Char) : List Char :=
  ps.map fun c => if c = a then b else c

/-- Rust `String::replace("\\n", "\n")`: left-to-right non-overlapping
replacement of the two-character sequence backslash `n` by a newline. -/
def replaceEscapedNewline : List Char → List Char
  | '\\' :: 'n' :: rest => '\n' :: replaceEscapedNewline rest
  | c :: rest => c :: replaceEscapedNewline rest
  | [] => []

/-- The `y` arm of `Sed::execute` (`Command::ReplaceCharSet`, sed.rs lines
1816-1826): for each aligned pair of `string1`/`string2` characters, in
order, globally replace the first by the second in the whole pattern space —
sequential full-string replacements, not a simultaneous per-character map —
and finally replace every literal backslash-`n` by a newline. -/
def executeReplaceCharSet (s1 s2 ps : List Char) : List Char :=
  replaceEscapedNewline
    ((s1.zip s2).foldl (fun p ab => replaceChar ab.1 ab.2 p) ps)

/-- C9: the claimed simultaneous per-character mapping fails on the code:
`y/ab/ba/` applied to `"ab"` would give `"ba"` under the claim, but the
sequential replacements give `"aa"` (`a` to `b` yields `"bb"`, then `b` to
`a` yields `"aa"`).  The claimed idempotence fails too: for `y/ab/ca/` on
`"b"` one application gives `"a"` and a second application gives `"c"`. -/
theorem transliterate_sequential_not_mapping :
    executeReplaceCharSet ("ab".toList) ("ba".toList) ("ab".toList)
        = "aa".toList
    ∧ "aa".toList ≠ "ba".toList
    ∧ executeReplaceCharSet ("ab".toList) ("ca".toList)
          (executeReplaceCharSet ("ab".toList) ("ca".toList) ("b".toList))
        ≠ executeReplaceCharSet ("ab".toList) ("ca".toList) ("b".toList) :=
  ⟨rfl, by decide, by decide⟩

end Sed
